import Mathlib

/-!
Verification of the zerologctx analyzer (src/zerologctx.go) against its
specification.  The development shallowly embeds the analyzer: Go strings
used by the suppression parser are `List Char`, resolved type information
is a function from expressions to optional type descriptors, and the
single inspector pass of `run` is a fold over the visited AST nodes.
-/

/-! ## Go string helpers (strings.TrimPrefix, strings.TrimSpace, strings.Split) -/

/-- Characters accepted by Go `unicode.IsSpace` for the ASCII and Latin-1 range. -/
def isSpaceChar (ch : Char) : Bool :=
  ch == ' ' || ch == '\t' || ch == '\n' || ch == '\u000b' || ch == '\u000c' ||
    ch == '\r' || ch == '\u0085' || ch == '\u00a0'

/-- Go `strings.TrimPrefix`: drop the prefix when present, else return the string unchanged. -/
def goTrimPrefix (s p : List Char) : List Char :=
  if p.isPrefixOf s then s.drop p.length else s

/-- Go `strings.TrimSpace`: drop leading and trailing whitespace. -/
def goTrimSpace (s : List Char) : List Char :=
  ((s.dropWhile isSpaceChar).reverse.dropWhile isSpaceChar).reverse

/-- Substring test on character lists: `sub` occurs contiguously in `s`. -/
def hasSubstring (s sub : List Char) : Bool :=
  sub.isPrefixOf s ||
  match s with
  | [] => false
  | _ :: t => hasSubstring t sub

/-- Go `strings.Contains` on the string representations used by the analyzer. -/
def strContains (s sub : String) : Bool :=
  hasSubstring s.toList sub.toList

/-! ## Capability classification (isContextType, implementsContextInterface) -/

/-- A resolved Go type as the analyzer observes it: its `String()` rendering,
its method set (names from `types.NewMethodSet`), and, for pointer types,
the method set of the element type. -/
structure GoType where
  str : String
  methodSet : List String
  elemMethodSet : Option (List String)
deriving DecidableEq, Repr

/-- The four methods required of `context.Context`: Deadline, Done, Err, Value. -/
def requiredCtxMethods : List String := ["Deadline", "Done", "Err", "Value"]

/-- `implementsContextInterface` from the source: the method set carries all
four `context.Context` methods. -/
def implementsContextInterface (methodSet : List String) : Bool :=
  requiredCtxMethods.all (fun m => methodSet.contains m)

/-- `isContextType` from the source: exact match, pointer match, substring
match (vendored paths), then the structural method-set fallback, checking a
pointer type, its element, and finally the type itself. -/
def isContextType (typ : GoType) : Bool :=
  typ.str == "context.Context" ||
  typ.str == "*context.Context" ||
  strContains typ.str "context.Context" ||
  (match typ.elemMethodSet with
   | some ems => implementsContextInterface typ.methodSet || implementsContextInterface ems
   | none => false) ||
  implementsContextInterface typ.methodSet

/-- The `argType != nil && isContextType(...)` pattern: absent type
information is treated as not-a-context. -/
def isContextTypeOpt : Option GoType → Bool
  | some t => isContextType t
  | none => false

/-- The `typeInfo.Type != nil && strings.Contains(typeString, "zerolog.Event")`
pattern used to recognize the Event builder kind. -/
def typeIsEvent : Option GoType → Bool
  | some t => strContains t.str "zerolog.Event"
  | none => false

/-! ## AST model -/

/-- The fragment of the Go AST the analyzer inspects: identifiers, basic
literals, selector expressions, call expressions, and a catch-all for every
other expression form. -/
inductive Expr where
  | ident (name : String)
  | basicLit (value : String)
  | sel (x : Expr) (selName : String)
  | call (fn : Expr) (args : List Expr)
  | other

/-- Resolved type information: `pass.TypesInfo` as a lookup from expressions
to optional type descriptors. -/
def TypeInfo : Type := Expr → Option GoType

/-! ## Chain walking (hasCtxInChain, hasCtxInContextChain) -/

/-- `hasCtxInChain` from the source: walk backward through the fluent chain;
a `Ctx` call counts only when it has at least one argument, the first
argument classifies as a context, and the receiver of the `Ctx` call itself
is the `zerolog.Event` kind; otherwise continue up the chain. -/
def hasCtxInChain (ti : TypeInfo) : Expr → Bool
  | Expr.call (Expr.sel x s) args =>
      (s == "Ctx" &&
        (match args with
         | a :: _ => isContextTypeOpt (ti a) && typeIsEvent (ti x)
         | [] => false)) ||
      hasCtxInChain ti x
  | _ => false

/-- `hasCtxInContextChain` from the source: like `hasCtxInChain` but without
the receiver-kind check, used for `With().Ctx(ctx).Logger()` chains. -/
def hasCtxInContextChain (ti : TypeInfo) : Expr → Bool
  | Expr.call (Expr.sel x s) args =>
      (s == "Ctx" &&
        (match args with
         | a :: _ => isContextTypeOpt (ti a)
         | [] => false)) ||
      hasCtxInContextChain ti x
  | _ => false

/-- `isLoggerWithContext` from the source: a `.Logger()` call whose preceding
chain contains a classified `Ctx` call. -/
def isLoggerWithContext (ti : TypeInfo) : Expr → Bool
  | Expr.call (Expr.sel x s) _ => s == "Logger" && hasCtxInContextChain ti x
  | _ => false

/-- The log-level producer methods recognized by `isEventFromLoggerWithContext`. -/
def logLevelMethods : List String :=
  ["Info", "Error", "Debug", "Warn", "Fatal", "Panic", "Trace", "Log"]

/-- `isEventFromLoggerWithContext` from the source: walk the chain looking
for a log-level call whose receiver identifier is a tracked logger. -/
def isEventFromLoggerWithContext (loggers : List String) : Expr → Bool
  | Expr.call (Expr.sel x s) _ =>
      (logLevelMethods.contains s &&
        (match x with
         | Expr.ident n => loggers.contains n
         | _ => false)) ||
      isEventFromLoggerWithContext loggers x
  | _ => false

/-- `isEventFromVariableWithContext` from the source: a bare identifier is
looked up directly; otherwise walk the chain and succeed when a receiver
identifier is tracked in the events map. -/
def isEventFromVariableWithContext (events : List String) : Expr → Bool
  | Expr.ident n => events.contains n
  | Expr.call (Expr.sel x _) _ =>
      (match x with
       | Expr.ident n => events.contains n
       | _ => false) ||
      isEventFromVariableWithContext events x
  | _ => false

/-- `isEventWithContext` from the source: the expression must have the
Event type, and either its chain carries a classified `Ctx` call or it
references a tracked event variable. -/
def isEventWithContext (ti : TypeInfo) (events : List String) (expr : Expr) : Bool :=
  typeIsEvent (ti expr) &&
  (hasCtxInChain ti expr || isEventFromVariableWithContext events expr)

/-! ## Suppression parsing (isNoLintComment, hasNoLintDirective) -/

/-- The literal suppression keyword. -/
def nolintKw : List Char := ['n', 'o', 'l', 'i', 'n', 't']

/-- `isNoLintComment` from the source, on the character-list rendering of
the comment text: strip the `//` marker, trim whitespace, require the
`nolint` keyword, require an immediately following colon, then split the
remainder on commas and compare each trimmed token with the linter name. -/
def noLintCore (commentText linterName : List Char) : Bool :=
  let text0 := goTrimPrefix commentText ['/', '/']
  let text1 := goTrimSpace text0
  if nolintKw.isPrefixOf text1 then
    let text2 := goTrimPrefix text1 nolintKw
    if [':'].isPrefixOf text2 then
      let text3 := goTrimSpace (goTrimPrefix text2 [':'])
      (text3.splitOn ',').any (fun l => goTrimSpace l == linterName)
    else false
  else false

/-- `isNoLintComment` from the source at the `String` interface. -/
def isNoLintComment (commentText linterName : String) : Bool :=
  noLintCore commentText.toList linterName.toList

/-- `hasNoLintDirective` from the source, given the texts of the comments
that sit on the same line as the call or on the line directly above it
(the positional lookup over `pass.Files` supplies exactly those texts). -/
def hasNoLintDirective (comments : List String) : Bool :=
  comments.any (fun c => isNoLintComment c "zerologctx")

/-! ## The rule engine (run) -/

/-- `terminalMethods` from the source. -/
def terminalMethods : List String := ["Msg", "Msgf", "MsgFunc", "Send"]

/-- A diagnostic as produced by `pass.Reportf`: the anchored position and
the formatted message. -/
structure Diagnostic where
  pos : Nat
  message : String
deriving DecidableEq, Repr

/-- The message format string of the `pass.Reportf` call, instantiated with
the terminal method name. -/
def diagMessage (m : String) : String :=
  "zerolog event missing .Ctx(ctx) before " ++ m ++
    "() - context should be included for proper log correlation"

/-- The two tracking maps of `run`: `loggersWithContext` and
`eventsWithContext`, as the lists of names mapped to true. -/
structure AnState where
  loggers : List String
  events : List String
deriving DecidableEq, Repr

/-- One iteration of the assignment loop of `run`: a non-identifier target
is skipped, a multi-target assignment from a single expression is skipped,
otherwise the right-hand side is classified as a logger with context or an
event with context and the corresponding map is extended. -/
def processAssignPair (ti : TypeInfo) (numLhs numRhs : Nat) (st : AnState)
    (lhs rhs : Expr) : AnState :=
  match lhs with
  | Expr.ident name =>
      if numRhs = 1 ∧ 1 < numLhs then st
      else if isLoggerWithContext ti rhs then { st with loggers := name :: st.loggers }
      else if isEventWithContext ti st.events rhs then { st with events := name :: st.events }
      else st
  | _ => st

/-- The `ast.AssignStmt` case of `run`: iterate over the targets paired
with the sources, stopping when the sources run out. -/
def processAssign (ti : TypeInfo) (st : AnState) (lhsList rhsList : List Expr) : AnState :=
  (lhsList.zip rhsList).foldl
    (fun s pr => processAssignPair ti lhsList.length rhsList.length s pr.1 pr.2) st

/-- The `ast.CallExpr` case of `run`: require a selector whose receiver has
the Event type and whose method is terminal; the call is covered when the
chain walk, the logger map, or the event map says so; an uncovered call is
reported unless a nolint directive applies.  `hasCtxInChainCached` memoizes
the pure `hasCtxInChain`, so its result is used directly. -/
def processCall (ti : TypeInfo) (st : AnState) (comments : List String)
    (pos : Nat) (e : Expr) : Option Diagnostic :=
  match e with
  | Expr.call (Expr.sel x m) _ =>
      if typeIsEvent (ti x) then
        if terminalMethods.contains m then
          if hasCtxInChain ti x || isEventFromLoggerWithContext st.loggers x ||
              isEventFromVariableWithContext st.events x then none
          else if hasNoLintDirective comments then none
          else some { pos := pos, message := diagMessage m }
        else none
      else none
  | _ => none

/-- The statement forms delivered by the inspector filter of `run`:
assignment statements and call expressions. -/
inductive Stmt where
  | assignStmt (lhs rhs : List Expr)
  | callStmt (e : Expr)

/-- One node visited by `insp.Preorder`, carrying the lexical scope it sits
in (a function body index, never consulted by the analyzer), its source
position, and the comment texts attached to its line and the line above. -/
structure Node where
  scope : Nat
  pos : Nat
  comments : List String
  stmt : Stmt

/-- The preorder traversal of `run` over the visited nodes, threading the
tracking maps and collecting diagnostics in document order. -/
def runAux (ti : TypeInfo) (st : AnState) : List Node → List Diagnostic
  | [] => []
  | n :: rest =>
      match n.stmt with
      | Stmt.assignStmt lhs rhs => runAux ti (processAssign ti st lhs rhs) rest
      | Stmt.callStmt e =>
          match processCall ti st n.comments n.pos e with
          | some d => d :: runAux ti st rest
          | none => runAux ti st rest

/-- `run` from the source: the single inspector pass started from empty
tracking maps. -/
def runAnalysis (ti : TypeInfo) (nodes : List Node) : List Diagnostic :=
  runAux ti { loggers := [], events := [] } nodes

/-! ## Concrete fixture: a typed program fragment for witnesses -/

/-- Type descriptor of `*zerolog.Event`. -/
def eventT : GoType :=
  { str := "*zerolog.Event", methodSet := [], elemMethodSet := some [] }

/-- Type descriptor of `zerolog.Logger`. -/
def loggerT : GoType :=
  { str := "zerolog.Logger", methodSet := [], elemMethodSet := none }

/-- Type descriptor of `context.Context`. -/
def ctxT : GoType :=
  { str := "context.Context", methodSet := requiredCtxMethods, elemMethodSet := none }

/-- Type descriptor of `string`. -/
def stringT : GoType :=
  { str := "string", methodSet := [], elemMethodSet := none }

/-- The identifier `log` (the zerolog package-level logger). -/
def logId : Expr := Expr.ident "log"

/-- The identifier `ctx` (a `context.Context` value in scope). -/
def ctxId : Expr := Expr.ident "ctx"

/-- The identifier `evt`. -/
def evtId : Expr := Expr.ident "evt"

/-- The call `log.Info()`. -/
def infoCall : Expr := Expr.call (Expr.sel logId "Info") []

/-- The call `log.Info().Ctx(ctx)`. -/
def ctxCall : Expr := Expr.call (Expr.sel infoCall "Ctx") [ctxId]

/-- The call `a.Str("k", "v")`. -/
def strCall : Expr :=
  Expr.call (Expr.sel (Expr.ident "a") "Str") [Expr.basicLit "k", Expr.basicLit "v"]

/-- Type information for the fixture program, as `go/types` resolves it. -/
def tiEx : TypeInfo := fun e =>
  match e with
  | Expr.ident "log" => some loggerT
  | Expr.ident "ctx" => some ctxT
  | Expr.ident "evt" => some eventT
  | Expr.ident "a" => some eventT
  | Expr.ident "b" => some eventT
  | Expr.basicLit _ => some stringT
  | Expr.call (Expr.sel (Expr.ident "log") "Info") [] => some eventT
  | Expr.call (Expr.sel (Expr.call (Expr.sel (Expr.ident "log") "Info") []) "Ctx") _ => some eventT
  | Expr.call (Expr.sel (Expr.ident "a") "Str") [Expr.basicLit "k", Expr.basicLit "v"] => some eventT
  | _ => none


/-! ## Chain abstraction and claim-side predicates -/

/-- Builds a fluent chain from a root expression by applying method links
(left to right), each link a method name with its argument list. -/
def buildChain (root : Expr) : List (String × List Expr) → Expr
  | [] => root
  | l :: ls => buildChain (Expr.call (Expr.sel root l.1) l.2) ls

/-- The suppression keyword followed immediately by the separator colon. -/
def nolintColonKw : List Char := ['n', 'o', 'l', 'i', 'n', 't', ':']

/-- Modelled from the claim for C6: after the comment marker is stripped
and the text trimmed, the keyword must lead, the next NON-SPACE character
must be a colon, and the rule name must appear exactly among the trimmed
comma-separated tokens after that colon. -/
def claimedNoLintCore (commentText linterName : List Char) : Bool :=
  let t := goTrimSpace (goTrimPrefix commentText ['/', '/'])
  nolintKw.isPrefixOf t &&
  (let u := (t.drop nolintKw.length).dropWhile isSpaceChar
   [':'].isPrefixOf u &&
   ((goTrimSpace (u.drop 1)).splitOn ',').any (fun tok => goTrimSpace tok == linterName))

/-- The amended reading of C6: the colon must follow the keyword
immediately, with no whitespace in between; whitespace elsewhere is
tolerated as before. -/
def noLintAmendedCore (commentText linterName : List Char) : Bool :=
  let t := goTrimSpace (goTrimPrefix commentText ['/', '/'])
  nolintColonKw.isPrefixOf t &&
  (((goTrimSpace (t.drop nolintColonKw.length)).splitOn ',').map goTrimSpace).contains linterName

/-! ## Helper lemmas -/

/-- With an empty logger map the logger-origin check never succeeds. -/
theorem eventFromLogger_nil : (x : Expr) → isEventFromLoggerWithContext [] x = false
  | Expr.ident _ => rfl
  | Expr.basicLit _ => rfl
  | Expr.other => rfl
  | Expr.sel _ _ => rfl
  | Expr.call (Expr.ident _) _ => rfl
  | Expr.call (Expr.basicLit _) _ => rfl
  | Expr.call Expr.other _ => rfl
  | Expr.call (Expr.call _ _) _ => rfl
  | Expr.call (Expr.sel y _) _ => by
      simp only [isEventFromLoggerWithContext, eventFromLogger_nil y, Bool.or_false]
      cases y <;> exact Bool.and_false _

/-- With an empty event map the variable-origin check never succeeds. -/
theorem eventFromVariable_nil : (x : Expr) → isEventFromVariableWithContext [] x = false
  | Expr.ident _ => rfl
  | Expr.basicLit _ => rfl
  | Expr.other => rfl
  | Expr.sel _ _ => rfl
  | Expr.call (Expr.ident _) _ => rfl
  | Expr.call (Expr.basicLit _) _ => rfl
  | Expr.call Expr.other _ => rfl
  | Expr.call (Expr.call _ _) _ => rfl
  | Expr.call (Expr.sel y _) _ => by
      simp only [isEventFromVariableWithContext, eventFromVariable_nil y, Bool.or_false]
      cases y <;> rfl

theorem buildChain_append (root : Expr) (xs ys : List (String × List Expr)) :
    buildChain root (xs ++ ys) = buildChain (buildChain root xs) ys := by
  induction xs generalizing root with
  | nil => rfl
  | cons l ls ih => simp [buildChain, ih]

/-- If the walk already succeeds at the root, extending the chain keeps it. -/
theorem hasCtxInChain_buildChain_of_root (ti : TypeInfo)
    (ls : List (String × List Expr)) (root : Expr)
    (h : hasCtxInChain ti root = true) :
    hasCtxInChain ti (buildChain root ls) = true := by
  induction ls generalizing root with
  | nil => exact h
  | cons l ls ih => exact ih _ (by simp [buildChain, hasCtxInChain, h])

/-- A covered receiver makes every terminal-call check return no diagnostic. -/
theorem processCall_none_of_covered (ti : TypeInfo) (st : AnState)
    (comments : List String) (pos : Nat) (x : Expr) (m : String) (targs : List Expr)
    (h : hasCtxInChain ti x = true) :
    processCall ti st comments pos (Expr.call (Expr.sel x m) targs) = none := by
  cases ht : typeIsEvent (ti x) <;> cases hm : terminalMethods.contains m <;>
    simp [processCall, ht, hm, h]

/-- Every emitted diagnostic is anchored at the position of the visited node. -/
theorem processCall_pos {ti : TypeInfo} {st : AnState} {comments : List String}
    {pos : Nat} {e : Expr} {d : Diagnostic}
    (h : processCall ti st comments pos e = some d) : d.pos = pos := by
  unfold processCall at h
  repeat' split at h
  all_goals simp_all
  all_goals (cases h; rfl)

/-- Each visited node contributes at most one diagnostic at its position. -/
theorem runAux_count_le (ti : TypeInfo) (p : Nat) :
    (nodes : List Node) → (st : AnState) →
    ((runAux ti st nodes).filter (fun d => d.pos == p)).length ≤
      (nodes.filter (fun n => n.pos == p)).length
  | [], _ => Nat.le_refl 0
  | ⟨_, pos, cm, Stmt.assignStmt lhs rhs⟩ :: rest, st => by
      have ih := runAux_count_le ti p rest (processAssign ti st lhs rhs)
      simp only [runAux, List.filter_cons]
      split
      · exact Nat.le_succ_of_le ih
      · exact ih
  | ⟨_, pos, cm, Stmt.callStmt e⟩ :: rest, st => by
      simp only [runAux]
      cases hc : processCall ti st cm pos e with
      | none =>
          have ih := runAux_count_le ti p rest st
          simp only [List.filter_cons]
          split
          · exact Nat.le_succ_of_le ih
          · exact ih
      | some d =>
          have hd : d.pos = pos := processCall_pos hc
          have ih := runAux_count_le ti p rest st
          simp only [List.filter_cons, hd]
          by_cases hp : (pos == p) = true
          · simp only [hp, if_true, List.length_cons]
            exact Nat.succ_le_succ ih
          · simp only [hp, if_false, Bool.false_eq_true]
            exact ih

/-! ## Claim theorems -/

/-- C1: for a call whose receiver resolves to the zerolog Event builder type
and whose method is in the terminal set, the engine emits the diagnostic
anchored at the call and naming the invoked method exactly when the chain
walk finds no injection, neither tracking map covers the receiver, and no
suppression comment applies; any emitted diagnostic equals that one, and
over a whole run each position receives at most as many diagnostics as it
has visited nodes, so a terminal call site yields at most one diagnostic. -/
theorem terminal_report_iff_uncovered (ti : TypeInfo) (st : AnState)
    (comments : List String) (pos : Nat) (x : Expr) (m : String) (args : List Expr)
    (hx : typeIsEvent (ti x) = true) (hm : terminalMethods.contains m = true) :
    (processCall ti st comments pos (Expr.call (Expr.sel x m) args) =
        some { pos := pos, message := diagMessage m } ↔
      (hasCtxInChain ti x = false ∧ isEventFromLoggerWithContext st.loggers x = false ∧
       isEventFromVariableWithContext st.events x = false ∧
       hasNoLintDirective comments = false)) ∧
    (∀ d, processCall ti st comments pos (Expr.call (Expr.sel x m) args) = some d →
       d = { pos := pos, message := diagMessage m }) ∧
    (∀ (nodes : List Node) (p : Nat),
       ((runAnalysis ti nodes).filter (fun d => d.pos == p)).length ≤
         (nodes.filter (fun n => n.pos == p)).length) := by
  have hm2 : m ∈ terminalMethods := by simpa using hm
  refine ⟨?_, ?_, ?_⟩
  · cases h1 : hasCtxInChain ti x <;>
      cases h2 : isEventFromLoggerWithContext st.loggers x <;>
        cases h3 : isEventFromVariableWithContext st.events x <;>
          cases h4 : hasNoLintDirective comments <;>
            simp [processCall, hx, hm, hm2, h1, h2, h3, h4]
  · intro d hd
    unfold processCall at hd
    repeat' split at hd
    all_goals simp_all
  · intro nodes p
    exact runAux_count_le ti p nodes { loggers := [], events := [] }

/-- Witness for C1: the uncovered, unsuppressed terminal call
log.Info().Msg is reported with the expected anchored diagnostic. -/
theorem terminal_report_iff_uncovered_w :
    processCall tiEx { loggers := [], events := [] } [] 5
        (Expr.call (Expr.sel infoCall "Msg") [Expr.basicLit "x"]) =
      some { pos := 5, message := diagMessage "Msg" } :=
  ((terminal_report_iff_uncovered tiEx { loggers := [], events := [] } [] 5 infoCall "Msg"
      [Expr.basicLit "x"] (by decide) (by decide)).1).mpr
    ⟨by decide, by decide, by decide, by decide⟩

/-- C2: a chain containing a Ctx link whose first argument classifies as a
context and whose receiver at that point has the Event builder type is
covered, and the terminal call on it is never reported, regardless of how
many other operations precede or follow the injection. -/
theorem ctx_injection_in_chain_covers (ti : TypeInfo) (st : AnState)
    (comments : List String) (pos : Nat) (root : Expr)
    (pre post : List (String × List Expr)) (c : Expr) (cargs : List Expr)
    (m : String) (targs : List Expr)
    (hc : isContextTypeOpt (ti c) = true)
    (hr : typeIsEvent (ti (buildChain root pre)) = true) :
    hasCtxInChain ti (buildChain root (pre ++ ("Ctx", c :: cargs) :: post)) = true ∧
    processCall ti st comments pos
      (Expr.call
        (Expr.sel (buildChain root (pre ++ ("Ctx", c :: cargs) :: post)) m) targs) = none := by
  have hcov : hasCtxInChain ti (buildChain root (pre ++ ("Ctx", c :: cargs) :: post)) = true := by
    rw [buildChain_append]
    exact hasCtxInChain_buildChain_of_root ti post
      (Expr.call (Expr.sel (buildChain root pre) "Ctx") (c :: cargs))
      (by simp [hasCtxInChain, hc, hr])
  exact ⟨hcov, processCall_none_of_covered ti st comments pos _ m targs hcov⟩

/-- Witness for C2: log.Info().Ctx(ctx).Str(k, v).Msg(x) is covered and
produces no diagnostic. -/
theorem ctx_injection_in_chain_covers_w :
    hasCtxInChain tiEx
      (buildChain logId
        [("Info", []), ("Ctx", [ctxId]), ("Str", [Expr.basicLit "k", Expr.basicLit "v"])]) = true ∧
    processCall tiEx { loggers := [], events := [] } [] 7
      (Expr.call
        (Expr.sel
          (buildChain logId
            [("Info", []), ("Ctx", [ctxId]), ("Str", [Expr.basicLit "k", Expr.basicLit "v"])]) "Msg")
        [Expr.basicLit "x"]) = none :=
  ctx_injection_in_chain_covers tiEx { loggers := [], events := [] } [] 7 logId
    [("Info", [])] [("Str", [Expr.basicLit "k", Expr.basicLit "v"])] ctxId [] "Msg"
    [Expr.basicLit "x"] (by decide) (by decide)

/-- C3: a Ctx call whose receiver does not resolve to the Event builder kind
(for instance log.Ctx(ctx) on the producer) never marks the chain as
carrying capability: the walk result is exactly that of the rest of the
chain. -/
theorem logger_ctx_not_marking (ti : TypeInfo) (x : Expr) (args : List Expr)
    (h : typeIsEvent (ti x) = false) :
    hasCtxInChain ti (Expr.call (Expr.sel x "Ctx") args) = hasCtxInChain ti x := by
  cases args with
  | nil => simp [hasCtxInChain]
  | cons a as => simp [hasCtxInChain, h]

/-- Witness for C3: log.Ctx(ctx), with log of the producer type
zerolog.Logger, leaves the chain walk at false. -/
theorem logger_ctx_not_marking_w :
    hasCtxInChain tiEx (Expr.call (Expr.sel logId "Ctx") [ctxId]) = false :=
  (logger_ctx_not_marking tiEx logId [ctxId] (by decide)).trans (by decide)

/-- C10: only the first argument of a Ctx call is classified; when the
first argument does not classify as a context the call contributes nothing
to the walk, whatever the later arguments are. -/
theorem ctx_first_arg_only (ti : TypeInfo) (x a : Expr) (rest : List Expr)
    (h : isContextTypeOpt (ti a) = false) :
    hasCtxInChain ti (Expr.call (Expr.sel x "Ctx") (a :: rest)) = hasCtxInChain ti x := by
  simp [hasCtxInChain, h]

/-- Witness for C10: a Ctx call whose first argument is a string literal is
not counted even though its second argument has type context.Context. -/
theorem ctx_first_arg_only_w :
    hasCtxInChain tiEx (Expr.call (Expr.sel infoCall "Ctx") [Expr.basicLit "s", ctxId]) = false :=
  (ctx_first_arg_only tiEx infoCall (Expr.basicLit "s") [ctxId] (by decide)).trans (by decide)

/-- A chain all of whose Ctx links carry a non-classifying first argument
adds nothing to a walk that fails at the root. -/
theorem hasCtxInChain_buildChain_false (ti : TypeInfo) :
    (links : List (String × List Expr)) → (root : Expr) →
    hasCtxInChain ti root = false →
    (∀ l ∈ links, l.1 = "Ctx" →
      (match l.2 with
       | [] => true
       | a :: _ => !isContextTypeOpt (ti a)) = true) →
    hasCtxInChain ti (buildChain root links) = false
  | [], _, hroot, _ => hroot
  | (mn, margs) :: ls, root, hroot, hlinks => by
      apply hasCtxInChain_buildChain_false ti ls
      · have hl := hlinks (mn, margs) (List.mem_cons_self _ _)
        simp only [hasCtxInChain, hroot, Bool.or_false]
        by_cases hmn : mn = "Ctx"
        · subst hmn
          have hl2 := hl rfl
          cases margs with
          | nil => simp
          | cons a as =>
              simp only [Bool.not_eq_eq_eq_not, Bool.not_true] at hl2
              simp [hl2]
        · simp [hmn]
      · exact fun l2 hl2 => hlinks l2 (List.mem_cons_of_mem _ hl2)

/-- C8: a chain whose Ctx calls all receive a first argument that does not
classify as a context (for instance a string literal or nil) is not
covered, and, with empty tracking maps and no suppressing comment, the
terminal call on it is reported. -/
theorem bad_ctx_arg_reports (ti : TypeInfo) (pos : Nat) (root : Expr)
    (links : List (String × List Expr)) (m : String) (targs : List Expr)
    (hroot : hasCtxInChain ti root = false)
    (hlinks : ∀ l ∈ links, l.1 = "Ctx" →
      (match l.2 with
       | [] => true
       | a :: _ => !isContextTypeOpt (ti a)) = true)
    (ht : typeIsEvent (ti (buildChain root links)) = true)
    (hm : terminalMethods.contains m = true) :
    hasCtxInChain ti (buildChain root links) = false ∧
    processCall ti { loggers := [], events := [] } [] pos
        (Expr.call (Expr.sel (buildChain root links) m) targs) =
      some { pos := pos, message := diagMessage m } := by
  have hcov := hasCtxInChain_buildChain_false ti links root hroot hlinks
  have hm2 : m ∈ terminalMethods := by simpa using hm
  refine ⟨hcov, ?_⟩
  simp [processCall, ht, hm, hm2, hcov, eventFromLogger_nil, eventFromVariable_nil,
        hasNoLintDirective]

/-- Witness for C8: log.Info().Ctx(s) with a string argument stays
uncovered and its Msg call is reported. -/
theorem bad_ctx_arg_reports_w :
    hasCtxInChain tiEx (buildChain logId [("Info", []), ("Ctx", [Expr.basicLit "s"])]) = false ∧
    processCall tiEx { loggers := [], events := [] } [] 9
        (Expr.call (Expr.sel (buildChain logId [("Info", []), ("Ctx", [Expr.basicLit "s"])]) "Msg")
          [Expr.basicLit "x"]) =
      some { pos := 9, message := diagMessage "Msg" } :=
  bad_ctx_arg_reports tiEx 9 logId [("Info", []), ("Ctx", [Expr.basicLit "s"])] "Msg"
    [Expr.basicLit "x"] (by decide) (by decide) (by decide) (by decide)

/-- C4: for a := q.Ctx(cap) followed by b := a.op(...) and b.Terminal(...),
with cap classifying as a context and every involved expression resolving
to the Event builder type, the event map covers b after the two
assignments and the three statements produce no diagnostic: capability
propagates through one level of local re-binding. -/
theorem rebinding_propagates_coverage (ti : TypeInfo) (a b : String)
    (q c : Expr) (cargs : List Expr) (op : String) (args2 : List Expr)
    (m : String) (targs : List Expr) (s1 s2 s3 p1 p2 p3 : Nat)
    (cm1 cm2 cm3 : List String)
    (hq : typeIsEvent (ti q) = true)
    (hc : isContextTypeOpt (ti c) = true)
    (h1 : typeIsEvent (ti (Expr.call (Expr.sel q "Ctx") (c :: cargs))) = true)
    (h2 : typeIsEvent (ti (Expr.call (Expr.sel (Expr.ident a) op) args2)) = true)
    (h3 : typeIsEvent (ti (Expr.ident b)) = true)
    (hm : terminalMethods.contains m = true) :
    isEventFromVariableWithContext
      (processAssign ti
        (processAssign ti { loggers := [], events := [] }
          [Expr.ident a] [Expr.call (Expr.sel q "Ctx") (c :: cargs)])
        [Expr.ident b] [Expr.call (Expr.sel (Expr.ident a) op) args2]).events
      (Expr.ident b) = true ∧
    runAnalysis ti
      [⟨s1, p1, cm1, Stmt.assignStmt [Expr.ident a] [Expr.call (Expr.sel q "Ctx") (c :: cargs)]⟩,
       ⟨s2, p2, cm2, Stmt.assignStmt [Expr.ident b] [Expr.call (Expr.sel (Expr.ident a) op) args2]⟩,
       ⟨s3, p3, cm3, Stmt.callStmt (Expr.call (Expr.sel (Expr.ident b) m) targs)⟩] = [] := by
  have hm2 : m ∈ terminalMethods := by simpa using hm
  have hst1 : processAssign ti { loggers := [], events := [] }
      [Expr.ident a] [Expr.call (Expr.sel q "Ctx") (c :: cargs)] =
      { loggers := [], events := [a] } := by
    simp [processAssign, processAssignPair, isLoggerWithContext, isEventWithContext,
          hasCtxInChain, h1, hq, hc]
  have hst2 : processAssign ti { loggers := [], events := [a] }
      [Expr.ident b] [Expr.call (Expr.sel (Expr.ident a) op) args2] =
      { loggers := [], events := [b, a] } := by
    simp [processAssign, processAssignPair, isLoggerWithContext, hasCtxInContextChain,
          isEventWithContext, isEventFromVariableWithContext, h2]
  constructor
  · rw [hst1, hst2]
    simp [isEventFromVariableWithContext]
  · simp [runAnalysis, runAux, hst1, hst2, processCall, h3, hm, hm2, hasCtxInChain,
          isEventFromLoggerWithContext, isEventFromVariableWithContext]

/-- Witness for C4: a := log.Info().Ctx(ctx); b := a.Str(k, v); b.Msg(x)
is covered and reports nothing. -/
theorem rebinding_propagates_coverage_w :
    runAnalysis tiEx
      [⟨0, 1, [], Stmt.assignStmt [Expr.ident "a"] [Expr.call (Expr.sel infoCall "Ctx") [ctxId]]⟩,
       ⟨0, 2, [], Stmt.assignStmt [Expr.ident "b"]
          [Expr.call (Expr.sel (Expr.ident "a") "Str") [Expr.basicLit "k", Expr.basicLit "v"]]⟩,
       ⟨0, 3, [], Stmt.callStmt (Expr.call (Expr.sel (Expr.ident "b") "Msg") [Expr.basicLit "x"])⟩] = [] :=
  (rebinding_propagates_coverage tiEx "a" "b" infoCall ctxId [] "Str"
    [Expr.basicLit "k", Expr.basicLit "v"] "Msg" [Expr.basicLit "x"] 0 0 0 1 2 3 [] [] []
    (by decide) (by decide) (by decide) (by decide) (by decide) (by decide)).2

/-- One assignment-loop iteration only ever extends the tracking maps. -/
theorem processAssignPair_extends (ti : TypeInfo) (nl nr : Nat) (st : AnState)
    (lhs rhs : Expr) :
    st.events <:+ (processAssignPair ti nl nr st lhs rhs).events ∧
    st.loggers <:+ (processAssignPair ti nl nr st lhs rhs).loggers := by
  cases lhs <;> simp only [processAssignPair] <;>
    try exact ⟨List.suffix_refl _, List.suffix_refl _⟩
  repeat' split
  all_goals
    exact ⟨(by first | exact List.suffix_refl _ | exact List.suffix_cons _ _),
           (by first | exact List.suffix_refl _ | exact List.suffix_cons _ _)⟩

/-- The assignment handler only ever extends the tracking maps. -/
theorem processAssign_extends (ti : TypeInfo) (st : AnState)
    (lhsList rhsList : List Expr) :
    st.events <:+ (processAssign ti st lhsList rhsList).events ∧
    st.loggers <:+ (processAssign ti st lhsList rhsList).loggers := by
  unfold processAssign
  generalize lhsList.zip rhsList = prs
  generalize lhsList.length = nl
  generalize rhsList.length = nr
  induction prs generalizing st with
  | nil => exact ⟨List.suffix_refl _, List.suffix_refl _⟩
  | cons p ps ih =>
      simp only [List.foldl_cons]
      obtain ⟨he, hl⟩ := processAssignPair_extends ti nl nr st p.1 p.2
      obtain ⟨he2, hl2⟩ := ih (processAssignPair ti nl nr st p.1 p.2)
      exact ⟨he.trans he2, hl.trans hl2⟩

/-- C9 amended: the assignment handler skips only the multi-target
assignment from a single source expression, leaving the state unchanged
there; assignments with positionally matched sources are tracked per pair;
and no previously tracked name is ever reset, since the maps only grow. -/
theorem tuple_assign_amended (ti : TypeInfo) (st : AnState)
    (lhsList rhsList : List Expr) :
    (rhsList.length = 1 → 2 ≤ lhsList.length →
      processAssign ti st lhsList rhsList = st) ∧
    st.events <:+ (processAssign ti st lhsList rhsList).events ∧
    st.loggers <:+ (processAssign ti st lhsList rhsList).loggers := by
  refine ⟨?_, processAssign_extends ti st lhsList rhsList⟩
  intro hr hl
  match rhsList, hr with
  | [r], _ =>
    match lhsList, hl with
    | l1 :: l2 :: rest, _ =>
      show List.foldl _ st ((l1 :: l2 :: rest).zip [r]) = st
      have hzip : (l1 :: l2 :: rest).zip [r] = [(l1, r)] := rfl
      rw [hzip]
      simp only [List.foldl_cons, List.foldl_nil]
      cases l1 with
      | ident nm =>
          simp only [processAssignPair]
          rw [if_pos ⟨rfl, by simp⟩]
      | basicLit v => rfl
      | sel y s => rfl
      | call f as => rfl
      | other => rfl

/-- Witness for C9 amended: the tuple form a, b := f() leaves the state
untouched. -/
theorem tuple_assign_amended_w :
    processAssign tiEx { loggers := ["lg"], events := ["ev"] }
      [Expr.ident "a", Expr.ident "b"]
      [Expr.call (Expr.sel (Expr.ident "f") "g") []] =
      { loggers := ["lg"], events := ["ev"] } :=
  (tuple_assign_amended tiEx { loggers := ["lg"], events := ["ev"] }
      [Expr.ident "a", Expr.ident "b"]
      [Expr.call (Expr.sel (Expr.ident "f") "g") []]).1 rfl (by decide)

/-- C9 counterexample: the two-target, two-source assignment
a, b := log.Info().Ctx(ctx), k records capability for a, and the later
a.Msg(x) is covered by it, against the claim that multi-target assignments
record no capability state. -/
theorem tuple_assign_records_cx :
    (processAssign tiEx { loggers := [], events := [] }
        [Expr.ident "a", Expr.ident "b"] [ctxCall, Expr.basicLit "k"]).events = ["a"] ∧
    runAnalysis tiEx
      [⟨0, 1, [], Stmt.assignStmt [Expr.ident "a", Expr.ident "b"] [ctxCall, Expr.basicLit "k"]⟩,
       ⟨0, 2, [], Stmt.callStmt (Expr.call (Expr.sel (Expr.ident "a") "Msg") [Expr.basicLit "x"])⟩] =
      [] :=
  ⟨by decide, by decide⟩

/-- The traversal never consults the scope label of a node. -/
theorem runAux_scope_irrelevant (ti : TypeInfo) (f : Nat → Nat) :
    (nodes : List Node) → (st : AnState) →
    runAux ti st (nodes.map (fun n => { n with scope := f n.scope })) = runAux ti st nodes
  | [], _ => rfl
  | ⟨sc, pos, cm, Stmt.assignStmt lhs rhs⟩ :: rest, st => by
      simp only [List.map_cons, runAux]
      exact runAux_scope_irrelevant ti f rest _
  | ⟨sc, pos, cm, Stmt.callStmt e⟩ :: rest, st => by
      simp only [List.map_cons, runAux]
      cases processCall ti st cm pos e <;>
        simp [runAux_scope_irrelevant ti f rest st]

/-- C7 amended: the tracking maps are keyed by bare identifier name and
live for the whole run: the analyzer is insensitive to the lexical scope
labels of the visited nodes, so a fact recorded in one scope covers a
same-named identifier in any other scope of the same run, and state is
discarded only with the run itself, never earlier. -/
theorem scope_labels_irrelevant (ti : TypeInfo) (f : Nat → Nat) (nodes : List Node) :
    runAnalysis ti (nodes.map (fun n => { n with scope := f n.scope })) =
      runAnalysis ti nodes :=
  runAux_scope_irrelevant ti f nodes { loggers := [], events := [] }

/-- C7 counterexample: the fact recorded for evt in scope 0 covers the
terminal call on evt in scope 1, which alone would be reported; so a fact
recorded in one lexical scope is consulted in another. -/
theorem cross_scope_consulted_cx :
    runAnalysis tiEx
      [⟨0, 1, [], Stmt.assignStmt [evtId] [ctxCall]⟩,
       ⟨1, 2, [], Stmt.callStmt (Expr.call (Expr.sel evtId "Msg") [Expr.basicLit "x"])⟩] = [] ∧
    runAnalysis tiEx
      [⟨1, 2, [], Stmt.callStmt (Expr.call (Expr.sel evtId "Msg") [Expr.basicLit "x"])⟩] =
      [{ pos := 2, message := diagMessage "Msg" }] :=
  ⟨by decide, by decide⟩

/-- C5 counterexample: the type db.Context has a simple name ending in
Context and a qualified name different from (and not containing)
context.Context, yet because it carries the four context methods the
classifier accepts it through the structural fallback, so the claim as
stated fails on the code. -/
theorem suffix_structural_match_cx :
    ("Context".toList.isSuffixOf "db.Context".toList = true ∧
     strContains "db.Context" "context.Context" = false) ∧
    isContextType
      { str := "db.Context", methodSet := requiredCtxMethods, elemMethodSet := none } = true :=
  ⟨⟨by decide, by decide⟩, by decide⟩

/-- C5 amended: a type whose simple name merely ends in Context classifies
false provided its qualified rendering does not contain context.Context as
a substring and neither its own method set nor, for pointer types, the
method set of its element carries the four context methods. -/
theorem suffix_only_match_rejected (t : GoType)
    (_hsuf : "Context".toList.isSuffixOf t.str.toList = true)
    (h1 : strContains t.str "context.Context" = false)
    (h2 : implementsContextInterface t.methodSet = false)
    (h3 : ∀ ms, t.elemMethodSet = some ms → implementsContextInterface ms = false) :
    isContextType t = false := by
  have e1 : (t.str == "context.Context") = false := by
    cases he : t.str == "context.Context" with
    | false => rfl
    | true =>
        have hv : t.str = "context.Context" := by simpa using he
        rw [hv] at h1
        exact absurd h1 (by decide)
  have e2 : (t.str == "*context.Context") = false := by
    cases he : t.str == "*context.Context" with
    | false => rfl
    | true =>
        have hv : t.str = "*context.Context" := by simpa using he
        rw [hv] at h1
        exact absurd h1 (by decide)
  unfold isContextType
  rw [e1, e2, h1, h2]
  cases hel : t.elemMethodSet with
  | none => simp
  | some ms => simp [h3 ms hel]

/-- Witness for C5 amended: foo.Context without the context method set is
rejected by the classifier. -/
theorem suffix_only_match_rejected_w :
    isContextType { str := "foo.Context", methodSet := [], elemMethodSet := none } = false :=
  suffix_only_match_rejected
    { str := "foo.Context", methodSet := [], elemMethodSet := none }
    (by decide) (by decide) (by decide) (fun ms h => nomatch h)

/-- Boolean equality of character lists is symmetric. -/
theorem listBeq_comm (p q : List Char) : (p == q) = (q == p) := by
  by_cases h : p = q
  · rw [h]
  · rw [beq_eq_false_iff_ne.mpr h, beq_eq_false_iff_ne.mpr (Ne.symm h)]

/-- Membership of the rule name among trimmed tokens, as a fold. -/
theorem contains_map_trim (l : List (List Char)) (r : List Char) :
    ((l.map goTrimSpace).contains r) = l.any (fun tok => goTrimSpace tok == r) := by
  induction l with
  | nil => rfl
  | cons x xs ih =>
      simp only [List.map_cons, List.any_cons, List.contains_cons, ih]
      rw [listBeq_comm]

/-- The source suppression check agrees with the immediate-colon predicate. -/
theorem noLintCore_eq_amended (c r : List Char) :
    noLintCore c r = noLintAmendedCore c r := by
  simp only [noLintCore, noLintAmendedCore]
  generalize goTrimSpace (goTrimPrefix c ['/', '/']) = t
  by_cases hk : nolintKw.isPrefixOf t = true
  · obtain ⟨u, hu⟩ := List.isPrefixOf_iff_prefix.mp hk
    subst hu
    rw [if_pos hk]
    have hdropKw : goTrimPrefix (nolintKw ++ u) nolintKw = u := by
      unfold goTrimPrefix
      rw [if_pos hk]
      exact List.drop_left _ _
    rw [hdropKw]
    by_cases hcol : ([':'].isPrefixOf u) = true
    · obtain ⟨v, hv⟩ := List.isPrefixOf_iff_prefix.mp hcol
      subst hv
      rw [if_pos hcol]
      have hdropCol : goTrimPrefix ([':'] ++ v) [':'] = v := by
        unfold goTrimPrefix
        rw [if_pos hcol]
        rfl
      rw [hdropCol]
      have heq : nolintKw ++ ([':'] ++ v) = nolintColonKw ++ v := by
        simp [nolintKw, nolintColonKw]
      have hpre : nolintColonKw.isPrefixOf (nolintKw ++ ([':'] ++ v)) = true := by
        apply List.isPrefixOf_iff_prefix.mpr
        rw [heq]
        exact List.prefix_append _ _
      have hdrop7 : (nolintKw ++ ([':'] ++ v)).drop nolintColonKw.length = v := by
        rw [heq]
        exact List.drop_left _ _
      rw [hpre, hdrop7, Bool.true_and, contains_map_trim]
    · rw [if_neg hcol]
      have hnp : nolintColonKw.isPrefixOf (nolintKw ++ u) = false := by
        cases hp : nolintColonKw.isPrefixOf (nolintKw ++ u) with
        | false => rfl
        | true =>
            exfalso
            have hp2 := List.isPrefixOf_iff_prefix.mp hp
            have h3 : nolintKw ++ [':'] <+: nolintKw ++ u := by
              simpa [nolintColonKw, nolintKw] using hp2
            exact hcol ( List.isPrefixOf_iff_prefix.mpr
              (( List.prefix_append_right_inj nolintKw).mp h3))
      rw [hnp, Bool.false_and]
  · rw [if_neg hk]
    have hnp : nolintColonKw.isPrefixOf t = false := by
      cases hp : nolintColonKw.isPrefixOf t with
      | false => rfl
      | true =>
          exfalso
          have hp2 := List.isPrefixOf_iff_prefix.mp hp
          have hkp : nolintKw <+: t := List.IsPrefix.trans ⟨[':'], rfl⟩ hp2
          exact hk ( List.isPrefixOf_iff_prefix.mpr hkp)
    rw [hnp, Bool.false_and]

/-- C6 amended: the suppression check returns true exactly when, after the
marker is stripped and the text trimmed, the keyword is followed
IMMEDIATELY by the colon and the rule name appears, trimmed, among the
comma-split tokens after it; whitespace before the keyword, after the
colon, and around tokens is tolerated, but not between keyword and colon. -/
theorem nolint_exact_characterization (s r : String) :
    isNoLintComment s r = noLintAmendedCore s.toList r.toList :=
  noLintCore_eq_amended s.toList r.toList

/-- C6 counterexample: with a space between the keyword and the colon the
claim-side predicate (next non-space character is a colon) accepts the
comment, while the source check rejects it. -/
theorem nolint_space_colon_cx :
    claimedNoLintCore "//nolint : zerologctx".toList "zerologctx".toList = true ∧
    isNoLintComment "//nolint : zerologctx" "zerologctx" = false :=
  ⟨by decide, by decide⟩
